import Mathlib

/-!
Verification development for the MCP protocol host in `src/mcp.ts`.

The development shallowly embeds the parts of the program the claims are
about:

* the payload canonicalization `stableStringify` / `computeSignature` used
  by the `ActionStateStore` (strings are Lean `String`s; JavaScript's
  key sort `Object.keys(value).sort()` compares strings by code unit,
  modelled here by code-point comparison on the character list, which is
  an equivalent total order for the determinism properties at issue);
* the `ActionStateStore` itself (`recordPlan`, `recordDryRun`,
  `validateConfirm`, `recordConfirm`), with JavaScript `Map`s modelled as
  association lists, `Date.now()` as an explicit `now : Nat` argument and
  `crypto.randomUUID()` as an explicit `actionId : String` argument;
  operations that can throw return `Except String _`, and mutating
  operations additionally return the post-state so that atomicity on
  failure is an actual theorem rather than a typing artifact;
* the WebSocket frame codec (`encodeFrame`, `decodeFrame`, `applyMask`,
  `decodeCloseFrame`), with Node `Buffer`s modelled as `List Nat` of byte
  values and big-endian reads/writes spelled out arithmetically;
* the `WebSocketConnection.handleData` loop, as a pure transition function
  on `(buffer, closed)` state that also returns the list of externally
  visible actions (message events, close frames written, pongs written);
* the `Host.handleInitialize` JSON-RPC handler on the per-session state.
-/

namespace OdooMcp

/-! ### JSON values and canonicalization (`ActionStateStore.stableStringify`) -/

/-- Tree of JSON-like payload values, the closed set of shapes
`stableStringify` recurses over: `null`, booleans, numbers, strings,
arrays, objects.  A number is carried as its `JSON.stringify` literal
(two equal JavaScript numbers stringify identically, which is all the
signature claims need).  Object fields are kept in insertion order, as
JavaScript objects do. -/
inductive Json where
  | null
  | bool (b : Bool)
  | num (lit : String)
  | str (s : String)
  | arr (items : List Json)
  | obj (fields : List (String × Json))

/-- Hex digit for `\u00XX` escapes (lower case, as `JSON.stringify`). -/
def hexDigit (n : Nat) : Char :=
  if n < 10 then Char.ofNat (48 + n) else Char.ofNat (87 + n)

/-- Escape one character the way `JSON.stringify` escapes string
characters. -/
def escapeChar (c : Char) : String :=
  if c = '"' then "\\\""
  else if c = '\\' then "\\\\"
  else if c = '\x08' then "\\b"
  else if c = '\x0c' then "\\f"
  else if c = '\n' then "\\n"
  else if c = '\r' then "\\r"
  else if c = '\t' then "\\t"
  else if c.toNat < 32 then
    "\\u00" ++ String.mk [hexDigit (c.toNat / 16), hexDigit (c.toNat % 16)]
  else String.singleton c

/-- The `JSON.stringify` image of a string: quoted and escaped. -/
def jsonQuote (s : String) : String :=
  "\"" ++ String.join (s.toList.map escapeChar) ++ "\""

/-- Code-point comparison of character lists; total order used to model
JavaScript's default string sort in `Object.keys(value).sort()`. -/
def charListLeb : List Char → List Char → Bool
  | [], _ => true
  | _ :: _, [] => false
  | a :: as, b :: bs =>
    if a.toNat < b.toNat then true
    else if b.toNat < a.toNat then false
    else charListLeb as bs

/-- String comparison by code points. -/
def strLeb (a b : String) : Bool := charListLeb a.toList b.toList

/-- Ordered insert of a serialized `(key, serializedValue)` entry, by key. -/
def insertByKey (x : String × String) : List (String × String) → List (String × String)
  | [] => [x]
  | y :: rest => if strLeb x.1 y.1 then x :: y :: rest else y :: insertByKey x rest

/-- Insertion sort of serialized object entries by key; models
`Object.keys(value).sort()` (on a JavaScript object the keys are
pairwise distinct, so every correct comparison sort yields this same
ordered list). -/
def sortByKey : List (String × String) → List (String × String)
  | [] => []
  | x :: rest => insertByKey x (sortByKey rest)

mutual

/-- Shallow embedding of `ActionStateStore.stableStringify`: primitives go
through `JSON.stringify` literally, arrays serialize in order, objects
serialize their fields sorted by key.  (The source stringifies
`value[key]` for each sorted key; since keys of a JavaScript object are
pairwise distinct, serializing the entries first and then sorting them by
key is the same function.) -/
def stableStringify : Json → String
  | Json.null => "null"
  | Json.bool b => cond b "true" "false"
  | Json.num lit => lit
  | Json.str s => jsonQuote s
  | Json.arr items => "[" ++ String.intercalate "," (stringifyItems items) ++ "]"
  | Json.obj fields =>
      "\x7b" ++ String.intercalate ","
        ((sortByKey (stringifyFields fields)).map
          (fun e => jsonQuote e.1 ++ ":" ++ e.2)) ++ "\x7d"
termination_by structural j => j

/-- Serialize each array item (the `value.map(...)` of the source). -/
def stringifyItems : List Json → List String
  | [] => []
  | j :: js => stableStringify j :: stringifyItems js
termination_by structural l => l

/-- Serialize each object field's value, keeping its key. -/
def stringifyFields : List (String × Json) → List (String × String)
  | [] => []
  | (k, v) :: rest => (k, stableStringify v) :: stringifyFields rest
termination_by structural l => l

end

/-- Shallow embedding of `ActionStateStore.computeSignature`. -/
def computeSignature (sessionId tool : String) (payload : Json) : String :=
  sessionId ++ ":" ++ tool ++ ":" ++ stableStringify payload

/-- Well-formedness of a payload as a JavaScript value: at every object
node the keys are pairwise distinct (JavaScript objects cannot carry a
duplicate key). -/
inductive Json.WF : Json → Prop where
  | null : Json.WF Json.null
  | bool (b : Bool) : Json.WF (Json.bool b)
  | num (lit : String) : Json.WF (Json.num lit)
  | str (s : String) : Json.WF (Json.str s)
  | arr {items : List Json} : (∀ j ∈ items, Json.WF j) → Json.WF (Json.arr items)
  | obj {fields : List (String × Json)} :
      (fields.map Prod.fst).Nodup →
      (∀ kv ∈ fields, Json.WF kv.2) →
      Json.WF (Json.obj fields)

mutual

/-- Equality of payloads as trees of JSON values, with objects compared as
key-value sets (key insertion order ignored) and arrays compared in
order. -/
inductive JEquiv : Json → Json → Prop where
  | null : JEquiv Json.null Json.null
  | bool (b : Bool) : JEquiv (Json.bool b) (Json.bool b)
  | num (lit : String) : JEquiv (Json.num lit) (Json.num lit)
  | str (s : String) : JEquiv (Json.str s) (Json.str s)
  | arr {xs ys : List Json} : JEquivItems xs ys → JEquiv (Json.arr xs) (Json.arr ys)
  | obj {fs gs gs' : List (String × Json)} :
      JEquivFields fs gs' → gs'.Perm gs → JEquiv (Json.obj fs) (Json.obj gs)

/-- Pointwise equivalence of array items, in order. -/
inductive JEquivItems : List Json → List Json → Prop where
  | nil : JEquivItems [] []
  | cons {x y : Json} {xs ys : List Json} :
      JEquiv x y → JEquivItems xs ys → JEquivItems (x :: xs) (y :: ys)

/-- Pointwise equivalence of object fields: same key, equivalent value. -/
inductive JEquivFields : List (String × Json) → List (String × Json) → Prop where
  | nil : JEquivFields [] []
  | cons {k : String} {v w : Json} {fs gs : List (String × Json)} :
      JEquiv v w → JEquivFields fs gs → JEquivFields ((k, v) :: fs) ((k, w) :: gs)

end

/-! ### The action state store (`ActionStateStore`)

`Date.now()` becomes an explicit `now : Nat` argument, `crypto.randomUUID()`
an explicit `actionId : String` argument, JavaScript `Map`s become
association lists with `Map.get` / `Map.set` / `Map.delete` counterparts,
and a `throw` becomes an `Except.error` carrying the thrown message;
the mutating operations also return the post-state (unchanged on the
error paths, exactly because in the source every `throw` happens before
the first mutation). -/

/-- Stage metadata (the `metadata` object of an `ActionStageRecord`);
absent optional fields are `none`. -/
structure StageMetadata where
  requestedBy : Option String := none
  approvedBy : Option String := none
  approvedAt : Option Nat := none
  confirmedBy : Option String := none
  confirmedAt : Option Nat := none
  expiresAt : Option Nat := none

/-- An `ActionStageRecord`; `mode` is the stage tag (the TypeScript type
parameter `TMode`), `result` an arbitrary payload-like value. -/
structure StageRecord where
  actionId : String
  mode : String
  sessionId : String
  tool : String
  payload : Json
  result : Json
  timestamp : Nat
  metadata : StageMetadata

/-- An `ActionLifecycle`. -/
structure ActionLifecycle where
  actionId : String
  sessionId : String
  tool : String
  payload : Json
  signature : String
  plan : Option StageRecord := none
  dryRun : Option StageRecord := none
  confirm : Option StageRecord := none

/-- An event appended to the `InMemoryEventStore` ledger by the store. -/
structure StoreEvent where
  type : String
  actionId : String
  sessionId : String
  tool : String
  payload : Json
  result : Json
  metadata : StageMetadata
  timestamp : Nat

/-- The `ActionStateStore` state: the two `Map`s plus the event ledger it
appends to. -/
structure ActionStateStore where
  lifecycles : List (String × ActionLifecycle) := []
  signatureIndex : List (String × String) := []
  events : List StoreEvent := []

/-- `Map.get`: value at the key, if present. -/
def mapGet {α : Type} : List (String × α) → String → Option α
  | [], _ => none
  | (k', v) :: rest, k => if k' = k then some v else mapGet rest k

/-- `Map.set`: replace in place if the key is present, else append. -/
def mapSet {α : Type} : List (String × α) → String → α → List (String × α)
  | [], k, v => [(k, v)]
  | (k', v') :: rest, k, v =>
    if k' = k then (k, v) :: rest else (k', v') :: mapSet rest k v

/-- `Map.delete`: drop the entry at the key (a `Map` holds each key at
most once). -/
def mapDelete {α : Type} : List (String × α) → String → List (String × α)
  | [], _ => []
  | (k', v') :: rest, k => if k' = k then rest else (k', v') :: mapDelete rest k

/-- The default approval window, `DEFAULT_APPROVAL_TTL_MS`. -/
def DEFAULT_APPROVAL_TTL_MS : Nat := 5 * 60 * 1000

/-- JavaScript truthiness of an optional string (`!s` is true exactly for
`undefined` and the empty string, the only falsy string values here). -/
def strTruthy : Option String → Bool
  | none => false
  | some s => !(s = "")

/-- JavaScript truthiness of `expiresAt && expiresAt < now`: an absent
field and the number `0` are falsy, so the comparison only runs on a
present non-zero stamp. -/
def expiredCheck (expiresAt : Option Nat) (now : Nat) : Bool :=
  match expiresAt with
  | none => false
  | some e => decide (e ≠ 0) && decide (e < now)

/-- Shallow embedding of `ActionStateStore.recordPlan`.  Never throws:
returns the plan stage record and the new store state. -/
def recordPlan (st : ActionStateStore) (actionId : String) (now : Nat)
    (sessionId tool : String) (payload result : Json)
    (requestedBy : Option String) : StageRecord × ActionStateStore :=
  let signature := computeSignature sessionId tool payload
  let plan : StageRecord :=
    { actionId, mode := "plan", sessionId, tool, payload, result,
      timestamp := now, metadata := { requestedBy } }
  let lifecycle : ActionLifecycle :=
    { actionId, sessionId, tool, payload, signature, plan := some plan }
  let lifecycles :=
    match mapGet st.signatureIndex signature with
    | some existing => mapDelete st.lifecycles existing
    | none => st.lifecycles
  let ev : StoreEvent :=
    { type := "action_plan_recorded", actionId, sessionId, tool, payload,
      result, metadata := plan.metadata, timestamp := now }
  (plan,
    { lifecycles := mapSet lifecycles actionId lifecycle,
      signatureIndex := mapSet st.signatureIndex signature actionId,
      events := st.events ++ [ev] })

/-- Shallow embedding of `ActionStateStore.recordDryRun`. -/
def recordDryRun (st : ActionStateStore) (now : Nat)
    (sessionId tool : String) (payload result : Json)
    (approvedBy : Option String) (approvalTtlMs : Option Nat) :
    Except String StageRecord × ActionStateStore :=
  let signature := computeSignature sessionId tool payload
  match mapGet st.signatureIndex signature with
  | none => (Except.error "A prior plan run is required before dry_run.", st)
  | some actionId =>
    match mapGet st.lifecycles actionId with
    | none => (Except.error "Plan metadata missing for this action.", st)
    | some lifecycle =>
      match lifecycle.plan with
      | none => (Except.error "Plan metadata missing for this action.", st)
      | some plan =>
        if lifecycle.sessionId ≠ sessionId then
          (Except.error "Action session mismatch.", st)
        else
          let expiresAt := now + approvalTtlMs.getD DEFAULT_APPROVAL_TTL_MS
          let dryRun : StageRecord :=
            { actionId, mode := "dry_run", sessionId, tool, payload, result,
              timestamp := now,
              metadata :=
                { requestedBy := plan.metadata.requestedBy, approvedBy,
                  approvedAt := some now, expiresAt := some expiresAt } }
          let lifecycle' := { lifecycle with dryRun := some dryRun, payload }
          let ev : StoreEvent :=
            { type := "action_dry_run_recorded", actionId, sessionId, tool,
              payload, result, metadata := dryRun.metadata, timestamp := now }
          (Except.ok dryRun,
            { st with lifecycles := mapSet st.lifecycles actionId lifecycle',
                      events := st.events ++ [ev] })

/-- Shallow embedding of `ActionStateStore.validateConfirm`.  The source
performs no mutation at all on any path, so the embedding takes the store
and returns only the validation outcome. -/
def validateConfirm (st : ActionStateStore) (now : Nat)
    (actionId sessionId tool : String) (payload : Json) :
    Except String StageRecord :=
  match mapGet st.lifecycles actionId with
  | none => Except.error "Unknown action. Please re-run plan and dry_run."
  | some lifecycle =>
    if lifecycle.tool ≠ tool then Except.error "Action tool mismatch."
    else if lifecycle.sessionId ≠ sessionId then
      Except.error "Action session mismatch."
    else if computeSignature sessionId tool payload ≠ lifecycle.signature then
      Except.error "Confirmation payload differs from the approved dry_run."
    else
      match lifecycle.dryRun with
      | none =>
        Except.error "A matching dry_run approval is required before confirmation."
      | some dryRun =>
        if ¬ strTruthy dryRun.metadata.approvedBy then
          Except.error "Dry_run has not been approved."
        else if expiredCheck dryRun.metadata.expiresAt now then
          Except.error "Dry_run approval has expired. Please run a new dry_run."
        else
          match lifecycle.confirm with
          | some _ => Except.error "Action already confirmed."
          | none => Except.ok dryRun

/-- Shallow embedding of `ActionStateStore.recordConfirm`. -/
def recordConfirm (st : ActionStateStore) (now : Nat)
    (actionId sessionId tool : String) (payload result : Json)
    (confirmedBy : Option String) :
    Except String StageRecord × ActionStateStore :=
  match mapGet st.lifecycles actionId with
  | none => (Except.error "Unknown action.", st)
  | some lifecycle =>
    let confirm : StageRecord :=
      { actionId, mode := "confirm", sessionId, tool, payload, result,
        timestamp := now,
        metadata :=
          { requestedBy := lifecycle.plan.bind (fun p => p.metadata.requestedBy),
            approvedBy := lifecycle.dryRun.bind (fun d => d.metadata.approvedBy),
            approvedAt := lifecycle.dryRun.bind (fun d => d.metadata.approvedAt),
            expiresAt := lifecycle.dryRun.bind (fun d => d.metadata.expiresAt),
            confirmedBy, confirmedAt := some now } }
    let lifecycle' := { lifecycle with confirm := some confirm }
    let ev : StoreEvent :=
      { type := "action_confirm_recorded", actionId, sessionId, tool, payload,
        result, metadata := confirm.metadata, timestamp := now }
    (Except.ok confirm,
      { lifecycles := mapSet st.lifecycles actionId lifecycle',
        signatureIndex := mapDelete st.signatureIndex lifecycle.signature,
        events := st.events ++ [ev] })

/-! ### WebSocket frame codec (`encodeFrame` / `decodeFrame`)

A Node `Buffer` is a `List Nat` of byte values.  Out-of-range reads use
`List.getD _ _ 0`; the decoder checks lengths before every read, so no
read in a reachable branch falls outside the buffer. -/

/-- Read the byte at an index (`buffer[i]`). -/
def byteAt (l : List Nat) (i : Nat) : Nat := l.getD i 0

/-- `Buffer.readUInt16BE`. -/
def readUInt16BE (l : List Nat) (off : Nat) : Nat :=
  byteAt l off * 256 + byteAt l (off + 1)

/-- `Buffer.readUInt32BE`. -/
def readUInt32BE (l : List Nat) (off : Nat) : Nat :=
  ((byteAt l off * 256 + byteAt l (off + 1)) * 256 + byteAt l (off + 2)) * 256
    + byteAt l (off + 3)

/-- `Buffer.writeUInt16BE`: the two big-endian bytes of a length below
`65536`. -/
def toBE16 (n : Nat) : List Nat := [n / 256, n % 256]

/-- `Buffer.writeUInt32BE`: the four big-endian bytes of a length below
`2 ^ 32`. -/
def toBE32 (n : Nat) : List Nat :=
  [n / 16777216, n / 65536 % 256, n / 256 % 256, n % 256]

/-- `applyMask`: XOR each payload byte with the masking key, the key
cycling every 4 bytes. -/
def applyMask (buffer mask : List Nat) : List Nat :=
  (List.range buffer.length).map (fun i => byteAt buffer i ^^^ byteAt mask (i % 4))

/-- A decoded frame (`DecodedFrame`). -/
structure DecodedFrame where
  fin : Bool
  opcode : Nat
  payload : List Nat
  totalLength : Nat
deriving DecidableEq

/-- Result of `decodeFrame`: `incomplete` is the `null` sentinel for a
buffer not yet holding a whole frame, `error` a thrown exception. -/
inductive DecodeResult where
  | incomplete
  | error (msg : String)
  | frame (f : DecodedFrame)
deriving DecidableEq

/-- Tail of `decodeFrame` once `fin`, `opcode`, `masked` and the payload
length are known: read the optional 4-byte mask, then the payload. -/
def finishDecode (buffer : List Nat) (fin : Bool) (opcode : Nat)
    (masked : Bool) (payloadLength offset : Nat) : DecodeResult :=
  if masked then
    if buffer.length < offset + 4 then DecodeResult.incomplete
    else
      let maskingKey := (buffer.drop offset).take 4
      if buffer.length < offset + 4 + payloadLength then DecodeResult.incomplete
      else
        DecodeResult.frame
          { fin, opcode,
            payload := applyMask ((buffer.drop (offset + 4)).take payloadLength) maskingKey,
            totalLength := offset + 4 + payloadLength }
  else
    if buffer.length < offset + payloadLength then DecodeResult.incomplete
    else
      DecodeResult.frame
        { fin, opcode, payload := (buffer.drop offset).take payloadLength,
          totalLength := offset + payloadLength }

/-- Shallow embedding of `decodeFrame`. -/
def decodeFrame (buffer : List Nat) : DecodeResult :=
  if buffer.length < 2 then DecodeResult.incomplete
  else
    let firstByte := byteAt buffer 0
    let secondByte := byteAt buffer 1
    let fin := decide (firstByte &&& 0x80 ≠ 0)
    let opcode := firstByte &&& 0x0f
    let masked := decide (secondByte &&& 0x80 ≠ 0)
    let payloadLength := secondByte &&& 0x7f
    if payloadLength = 126 then
      if buffer.length < 4 then DecodeResult.incomplete
      else finishDecode buffer fin opcode masked (readUInt16BE buffer 2) 4
    else if payloadLength = 127 then
      if buffer.length < 10 then DecodeResult.incomplete
      else if readUInt32BE buffer 2 ≠ 0 then
        DecodeResult.error "WebSocket frames larger than 4GB are not supported"
      else finishDecode buffer fin opcode masked (readUInt32BE buffer 6) 10
    else finishDecode buffer fin opcode masked payloadLength 2

/-- Shallow embedding of `encodeFrame`: fin always set, never masked, and
the 7, 16 or 64 bit length encoding chosen by payload size.  (For payloads of
`2 ^ 32` bytes or more Node's `writeUInt32BE` would throw; such payloads
are outside the modelled domain and every theorem below hypothesizes the
32-bit bound.) -/
def encodeFrame (payload : List Nat) (opcode : Nat) : List Nat :=
  let firstByte := 0x80 ||| (opcode &&& 0x0f)
  if payload.length < 126 then
    firstByte :: payload.length :: payload
  else if payload.length < 65536 then
    firstByte :: 126 :: (toBE16 payload.length ++ payload)
  else
    firstByte :: 127 :: ([0, 0, 0, 0] ++ toBE32 payload.length ++ payload)

/-- Shallow embedding of `decodeCloseFrame`: big-endian status code in the
first two bytes, remaining bytes the reason (kept as raw bytes). -/
def decodeCloseFrame (payload : List Nat) : Nat × List Nat :=
  if payload.length < 2 then (1005, [])
  else (readUInt16BE payload 0, payload.drop 2)

/-! ### The connection data handler (`WebSocketConnection.handleData`)

The handler's externally visible actions are modelled as an event list:
`message` for an emitted `message` event (payload kept as raw bytes),
`closeSent` for a close frame written by `close(code, reason)`,
`closeEmitted` for an emitted `close` event on an inbound close frame,
`pongSent` for a pong written in reply to a ping, and `decodeError` for
an exception escaping `decodeFrame`.  `close()` on an already-closed
connection is a no-op, hence the `closed` guards on `closeSent`. -/

/-- Externally visible actions of the data handler. -/
inductive ConnEvent where
  | message (payload : List Nat)
  | closeSent (code : Nat) (reason : String)
  | closeEmitted (code : Nat) (reason : List Nat)
  | pongSent (payload : List Nat)
  | decodeError (msg : String)
deriving DecidableEq

/-- Connection state: the accumulation buffer and the closed flag. -/
structure ConnState where
  buffer : List Nat
  closed : Bool
deriving DecidableEq

/-- The `while (true)` decode loop of `handleData`, as a function of the
(already concatenated) buffer: returns the final connection state and the
actions performed, in order.  Each decoded frame trims the buffer by its
`totalLength`; a fragmented text frame closes with 1003 and returns, a
close frame emits `close` and returns, an unsupported opcode closes with
1003 and returns, ping answers with a pong, pong is ignored. -/
def processBuffer (buffer : List Nat) (closed : Bool) : ConnState × List ConnEvent :=
  match h : decodeFrame buffer with
  | DecodeResult.incomplete => (⟨buffer, closed⟩, [])
  | DecodeResult.error msg => (⟨buffer, closed⟩, [ConnEvent.decodeError msg])
  | DecodeResult.frame f =>
    let rest := buffer.drop f.totalLength
    if f.opcode = 0x1 then
      if f.fin then
        let out := processBuffer rest closed
        (out.1, ConnEvent.message f.payload :: out.2)
      else
        (⟨rest, true⟩,
          if closed then [] else
            [ConnEvent.closeSent 1003 "Fragmented frames are not supported"])
    else if f.opcode = 0x8 then
      let c := decodeCloseFrame f.payload
      (⟨rest, true⟩, [ConnEvent.closeEmitted c.1 c.2])
    else if f.opcode = 0x9 then
      let out := processBuffer rest closed
      (out.1, ConnEvent.pongSent f.payload :: out.2)
    else if f.opcode = 0xA then
      processBuffer rest closed
    else
      (⟨rest, true⟩,
        if closed then [] else
          [ConnEvent.closeSent 1003 "Unsupported WebSocket opcode"])
termination_by buffer.length
decreasing_by
  all_goals
    simp only [List.length_drop]
    have hfin : ∀ (b : List Nat) (fi : Bool) (op : Nat) (m : Bool) (pl off : Nat)
        (fr : DecodedFrame),
        finishDecode b fi op m pl off = DecodeResult.frame fr → off ≤ fr.totalLength := by
      intro b fi op m pl off fr hf
      unfold finishDecode at hf
      split at hf
      · split at hf
        · cases hf
        · split at hf
          · cases hf
          · cases hf; simp; try omega
      · split at hf
        · cases hf
        · cases hf; simp; try omega
    have h2 : ¬ buffer.length < 2 := by
      intro hlt
      rw [decodeFrame, if_pos hlt] at h
      cases h
    rw [decodeFrame, if_neg h2] at h
    simp only at h
    split at h
    · split at h
      · cases h
      · have := hfin _ _ _ _ _ _ _ h; omega
    · split at h
      · split at h
        · cases h
        · split at h
          · cases h
          · have := hfin _ _ _ _ _ _ _ h; omega
      · have := hfin _ _ _ _ _ _ _ h; omega

/-- Shallow embedding of `WebSocketConnection.handleData`: append the
arriving chunk to the accumulation buffer, then run the decode loop.
There is no `closed` check anywhere in the source handler. -/
def handleData (st : ConnState) (chunk : List Nat) : ConnState × List ConnEvent :=
  processBuffer (st.buffer ++ chunk) st.closed

/-- Deliver a sequence of chunks to the data handler, threading the state
and concatenating the performed actions. -/
def feedChunks (st : ConnState) : List (List Nat) → ConnState × List ConnEvent
  | [] => (st, [])
  | c :: cs =>
    let out := handleData st c
    let out' := feedChunks out.1 cs
    (out'.1, out.2 ++ out'.2)

/-- A byte sequence forming a sequence of complete frames: it splits into
blocks, each of which decodes to a frame whose `totalLength` is exactly
the block length. -/
inductive FrameSeq : List Nat → List DecodedFrame → Prop where
  | nil : FrameSeq [] []
  | cons {block rest : List Nat} {f : DecodedFrame} {fs : List DecodedFrame} :
      decodeFrame block = DecodeResult.frame f →
      f.totalLength = block.length →
      FrameSeq rest fs →
      FrameSeq (block ++ rest) (f :: fs)

/-- A frame the data handler consumes without leaving the decode loop:
a final text frame, a ping, or a pong.  (Fragmented text, close frames
and unsupported opcodes all `return` out of the loop.) -/
def benignFrame (f : DecodedFrame) : Prop :=
  (f.opcode = 0x1 ∧ f.fin = true) ∨ f.opcode = 0x9 ∨ f.opcode = 0xA

/-- The actions the data handler performs for one benign frame. -/
def frameEvents (f : DecodedFrame) : List ConnEvent :=
  if f.opcode = 0x1 then [ConnEvent.message f.payload]
  else if f.opcode = 0x9 then [ConnEvent.pongSent f.payload]
  else []

/-- The actions the data handler performs for a sequence of benign
frames, in order. -/
def streamEvents (fs : List DecodedFrame) : List ConnEvent :=
  (fs.map frameEvents).flatten

/-! ### Session initialization (`Host.handleInitialize`)

Only the state the claim is about is modelled: the per-session
`initialized` flag and `clientInfo` descriptor, and the JSON-RPC reply.
(The `session_initialized` ledger append touches neither.) -/

/-- The claim-relevant data of a registered tool (its `execute` function
plays no role in `initialize`). -/
structure ToolSpec where
  name : String
  description : String
  inputSchema : Json

/-- Per-session state relevant to `initialize`: before initialization
`clientInfo` is unset (`none`); afterwards it holds the client descriptor,
possibly the JSON `null`. -/
structure Session where
  initialized : Bool
  clientInfo : Option Json

/-- The declared capabilities object. -/
structure Capabilities where
  list : Bool
  call : Bool
  streaming : Bool
deriving DecidableEq

/-- The result object of a successful `initialize`. -/
structure InitResult where
  protocolVersion : String
  capabilities : Capabilities
  tools : List ToolSpec

/-- A JSON-RPC reply to `initialize`: a result or an error
`(code, message)`. -/
inductive RpcReply where
  | result (r : InitResult)
  | error (code : Int) (message : String)

/-- Shallow embedding of `Host.handleInitialize`; `client` models
`message.params?.client` (`none` when the params or the field are absent)
and `?? null` stores the JSON `null` in that case.  The tool catalog of
the response carries name, description and input schema of every
registered tool. -/
def handleInitialize (tools : List ToolSpec) (s : Session) (client : Option Json) :
    Session × RpcReply :=
  if s.initialized then
    (s, RpcReply.error (-32600) "Session already initialized")
  else
    ({ initialized := true, clientInfo := some (client.getD Json.null) },
      RpcReply.result
        { protocolVersion := "2024-05-22",
          capabilities := { list := true, call := true, streaming := true },
          tools })

/-! ## Theorems -/

/-! ### Association-list `Map` lemmas -/

theorem mapGet_set_self {α : Type} (m : List (String × α)) (k : String) (v : α) :
    mapGet (mapSet m k v) k = some v := by
  induction m with
  | nil => simp [mapSet, mapGet]
  | cons kv rest ih =>
    obtain ⟨k', v'⟩ := kv
    by_cases hk : k' = k
    · subst hk; simp [mapSet, mapGet]
    · simp [mapSet, mapGet, hk, ih]

theorem mapGet_set_ne {α : Type} (m : List (String × α)) (k k' : String) (v : α)
    (h : k ≠ k') : mapGet (mapSet m k v) k' = mapGet m k' := by
  induction m with
  | nil => simp [mapSet, mapGet, h]
  | cons kv rest ih =>
    obtain ⟨k₀, v₀⟩ := kv
    by_cases hk : k₀ = k
    · subst hk; simp [mapSet, mapGet, h]
    · simp [mapSet, mapGet, hk, ih]

theorem mapGet_eq_none_of_not_mem {α : Type} (m : List (String × α)) (k : String)
    (h : k ∉ m.map Prod.fst) : mapGet m k = none := by
  induction m with
  | nil => rfl
  | cons kv rest ih =>
    obtain ⟨k₀, v₀⟩ := kv
    simp only [List.map_cons, List.mem_cons] at h
    push_neg at h
    have hne : k₀ ≠ k := fun hh => h.1 hh.symm
    simp [mapGet, hne, ih h.2]

theorem mapGet_delete_self {α : Type} (m : List (String × α)) (k : String)
    (hnd : (m.map Prod.fst).Nodup) : mapGet (mapDelete m k) k = none := by
  induction m with
  | nil => rfl
  | cons kv rest ih =>
    obtain ⟨k₀, v₀⟩ := kv
    simp only [List.map_cons, List.nodup_cons] at hnd
    by_cases hk : k₀ = k
    · subst hk
      simpa [mapDelete] using mapGet_eq_none_of_not_mem rest k₀ hnd.1
    · simp [mapDelete, mapGet, hk, ih hnd.2]

theorem mapGet_delete_ne {α : Type} (m : List (String × α)) (k k' : String)
    (h : k ≠ k') : mapGet (mapDelete m k) k' = mapGet m k' := by
  induction m with
  | nil => rfl
  | cons kv rest ih =>
    obtain ⟨k₀, v₀⟩ := kv
    by_cases hk : k₀ = k
    · subst hk; simp [mapDelete, mapGet, fun hh : k₀ = k' => h hh]
    · simp [mapDelete, mapGet, hk, ih]

/-! ### The key order used by the canonicalizer -/

theorem charListLeb_total : ∀ a b : List Char,
    charListLeb a b = true ∨ charListLeb b a = true
  | [], _ => Or.inl rfl
  | _ :: _, [] => Or.inr rfl
  | a :: as, b :: bs => by
    rcases Nat.lt_trichotomy a.toNat b.toNat with h | h | h
    · left; simp [charListLeb, h]
    · have ha : ¬ a.toNat < b.toNat := by omega
      have hb : ¬ b.toNat < a.toNat := by omega
      rcases charListLeb_total as bs with ih | ih
      · left; simp [charListLeb, ha, hb, ih]
      · right; simp [charListLeb, ha, hb, ih]
    · right; simp [charListLeb, h]

theorem charListLeb_cons (a b : Char) (as bs : List Char) :
    charListLeb (a :: as) (b :: bs) = true ↔
      (a.toNat < b.toNat ∨ (a.toNat = b.toNat ∧ charListLeb as bs = true)) := by
  by_cases h₁ : a.toNat < b.toNat
  · simp [charListLeb, h₁]
  · by_cases h₂ : b.toNat < a.toNat
    · have hfalse : charListLeb (a :: as) (b :: bs) = false := by
        simp [charListLeb, h₁, h₂]
      rw [hfalse]
      constructor
      · intro hh; exact absurd hh (by decide)
      · rintro (hh | ⟨hh, -⟩) <;> omega
    · have heq : a.toNat = b.toNat := by omega
      simp [charListLeb, h₁, h₂, heq]

theorem charListLeb_antisymm : ∀ a b : List Char,
    charListLeb a b = true → charListLeb b a = true → a = b
  | [], [], _, _ => rfl
  | [], _ :: _, _, h => by simp [charListLeb] at h
  | _ :: _, [], h, _ => by simp [charListLeb] at h
  | a :: as, b :: bs, h₁, h₂ => by
    rw [charListLeb_cons] at h₁ h₂
    rcases h₁ with h₁ | ⟨he₁, ht₁⟩
    · rcases h₂ with h₂ | ⟨he₂, -⟩ <;> omega
    · rcases h₂ with h₂ | ⟨-, ht₂⟩
      · omega
      · have hab : a = b := by
          have := congrArg Char.ofNat he₁
          rwa [Char.ofNat_toNat, Char.ofNat_toNat] at this
        rw [hab, charListLeb_antisymm as bs ht₁ ht₂]

theorem charListLeb_trans : ∀ a b c : List Char,
    charListLeb a b = true → charListLeb b c = true → charListLeb a c = true
  | [], _, _, _, _ => rfl
  | _ :: _, [], _, h, _ => by simp [charListLeb] at h
  | _ :: _, _ :: _, [], _, h => by simp [charListLeb] at h
  | a :: as, b :: bs, c :: cs, h₁, h₂ => by
    rw [charListLeb_cons] at h₁ h₂ ⊢
    rcases h₁ with h₁ | ⟨he₁, ht₁⟩
    · rcases h₂ with h₂ | ⟨he₂, -⟩
      · left; omega
      · left; omega
    · rcases h₂ with h₂ | ⟨he₂, ht₂⟩
      · left; omega
      · right
        exact ⟨by omega, charListLeb_trans as bs cs ht₁ ht₂⟩

theorem strLeb_total (a b : String) : strLeb a b = true ∨ strLeb b a = true :=
  charListLeb_total a.toList b.toList

theorem strLeb_antisymm {a b : String} (h₁ : strLeb a b = true)
    (h₂ : strLeb b a = true) : a = b :=
  String.toList_inj.mp (charListLeb_antisymm _ _ h₁ h₂)

theorem strLeb_trans {a b c : String} (h₁ : strLeb a b = true)
    (h₂ : strLeb b c = true) : strLeb a c = true :=
  charListLeb_trans _ _ _ h₁ h₂

/-! ### Sorting serialized object entries -/

theorem perm_insertByKey (x : String × String) :
    ∀ l : List (String × String), (insertByKey x l).Perm (x :: l)
  | [] => List.Perm.refl _
  | y :: rest => by
    by_cases h : strLeb x.1 y.1
    · simp [insertByKey, h]
    · simp only [insertByKey, if_neg h]
      exact ((perm_insertByKey x rest).cons y).trans (List.Perm.swap x y rest)

theorem perm_sortByKey : ∀ l : List (String × String), (sortByKey l).Perm l
  | [] => List.Perm.refl _
  | x :: rest =>
    (perm_insertByKey x (sortByKey rest)).trans ((perm_sortByKey rest).cons x)

theorem pairwise_insertByKey (x : String × String) :
    ∀ l : List (String × String),
      l.Pairwise (fun a b => strLeb a.1 b.1 = true) →
      (insertByKey x l).Pairwise (fun a b => strLeb a.1 b.1 = true)
  | [], _ => List.pairwise_singleton _ _
  | y :: rest, hp => by
    rcases List.pairwise_cons.mp hp with ⟨hy, hrest⟩
    by_cases h : strLeb x.1 y.1
    · simp only [insertByKey, if_pos h]
      refine List.pairwise_cons.mpr ⟨?_, hp⟩
      intro z hz
      rcases List.mem_cons.mp hz with hz | hz
      · rw [hz]; exact h
      · exact strLeb_trans h (hy z hz)
    · simp only [insertByKey, if_neg h]
      refine List.pairwise_cons.mpr ⟨?_, pairwise_insertByKey x rest hrest⟩
      intro z hz
      have hz' := (perm_insertByKey x rest).mem_iff.mp hz
      rcases List.mem_cons.mp hz' with hz' | hz'
      · rw [hz']
        rcases strLeb_total x.1 y.1 with ht | ht
        · exact absurd ht h
        · exact ht
      · exact hy z hz'

theorem pairwise_sortByKey : ∀ l : List (String × String),
    (sortByKey l).Pairwise (fun a b => strLeb a.1 b.1 = true)
  | [] => List.Pairwise.nil
  | x :: rest => pairwise_insertByKey x (sortByKey rest) (pairwise_sortByKey rest)

theorem sorted_perm_nodup_keys_eq :
    ∀ l₁ l₂ : List (String × String), l₁.Perm l₂ →
      l₁.Pairwise (fun a b => strLeb a.1 b.1 = true) →
      l₂.Pairwise (fun a b => strLeb a.1 b.1 = true) →
      (l₁.map Prod.fst).Nodup → l₁ = l₂
  | [], l₂, hp, _, _, _ => hp.nil_eq
  | a :: t, [], hp, _, _, _ => by
    have := hp.length_eq
    simp at this
  | a :: t, b :: t₂, hp, hs₁, hs₂, hnd => by
    rcases List.pairwise_cons.mp hs₁ with ⟨ha, hs₁'⟩
    rcases List.pairwise_cons.mp hs₂ with ⟨hb, hs₂'⟩
    simp only [List.map_cons, List.nodup_cons] at hnd
    by_cases hab : a = b
    · subst hab
      have hpt : t.Perm t₂ := hp.cons_inv
      rw [sorted_perm_nodup_keys_eq t t₂ hpt hs₁' hs₂' hnd.2]
    · exfalso
      have hbmem : b ∈ a :: t := hp.mem_iff.mpr (List.mem_cons_self b t₂)
      rcases List.mem_cons.mp hbmem with hb' | hb'
      · exact hab hb'.symm
      · have hamem : a ∈ b :: t₂ := hp.mem_iff.mp (List.mem_cons_self a t)
        rcases List.mem_cons.mp hamem with ha' | ha'
        · exact hab ha'
        · have h₁ : strLeb a.1 b.1 = true := ha b hb'
          have h₂ : strLeb b.1 a.1 = true := hb a ha'
          have hkey : a.1 = b.1 := strLeb_antisymm h₁ h₂
          exact hnd.1 (hkey ▸ List.mem_map_of_mem Prod.fst hb')

theorem sortByKey_eq_of_perm {l₁ l₂ : List (String × String)} (hp : l₁.Perm l₂)
    (hnd : (l₁.map Prod.fst).Nodup) : sortByKey l₁ = sortByKey l₂ := by
  refine sorted_perm_nodup_keys_eq _ _ ?_ (pairwise_sortByKey l₁) (pairwise_sortByKey l₂) ?_
  · exact (perm_sortByKey l₁).trans (hp.trans (perm_sortByKey l₂).symm)
  · exact (((perm_sortByKey l₁).map Prod.fst).nodup_iff).mpr hnd

/-! ### Canonicalization respects key-set equality of objects (C5) -/

theorem stringifyItems_eq_map : ∀ l : List Json,
    stringifyItems l = l.map stableStringify
  | [] => rfl
  | j :: js => by
    simp only [stringifyItems, List.map_cons, stringifyItems_eq_map js]

theorem stringifyFields_eq_map : ∀ l : List (String × Json),
    stringifyFields l = l.map (fun kv => (kv.1, stableStringify kv.2))
  | [] => rfl
  | (k, v) :: rest => by
    simp only [stringifyFields, List.map_cons, stringifyFields_eq_map rest]

theorem jequivFields_keys : ∀ {fs gs : List (String × Json)}, JEquivFields fs gs →
    fs.map Prod.fst = gs.map Prod.fst := by
  intro fs
  induction fs with
  | nil =>
    intro gs h
    cases h
    rfl
  | cons kv rest ih =>
    intro gs h
    obtain ⟨k, v⟩ := kv
    cases h with
    | cons hv ht => simp [ih ht]

mutual

theorem stableStringify_equiv : ∀ {a b : Json}, JEquiv a b → Json.WF a →
    stableStringify a = stableStringify b
  | _, _, JEquiv.null, _ => rfl
  | _, _, JEquiv.bool _, _ => rfl
  | _, _, JEquiv.num _, _ => rfl
  | _, _, JEquiv.str _, _ => rfl
  | _, _, @JEquiv.arr xs ys hxs, wf => by
    have hwf : ∀ j ∈ xs, Json.WF j := by cases wf with | arr h => exact h
    simp only [stableStringify]
    rw [stringifyItems_equiv hxs hwf]
  | _, _, @JEquiv.obj fs gs gs' hfs hperm, wf => by
    have hnd : (fs.map Prod.fst).Nodup := by cases wf with | obj h₁ h₂ => exact h₁
    have hwf : ∀ kv ∈ fs, Json.WF kv.2 := by cases wf with | obj h₁ h₂ => exact h₂
    have h1 : stringifyFields fs = stringifyFields gs' :=
      stringifyFields_equiv hfs hwf
    have h2 : (stringifyFields gs').Perm (stringifyFields gs) := by
      rw [stringifyFields_eq_map, stringifyFields_eq_map]
      exact hperm.map _
    have hnd' : ((stringifyFields gs').map Prod.fst).Nodup := by
      rw [stringifyFields_eq_map, List.map_map]
      have hkeys : fs.map Prod.fst = gs'.map Prod.fst := jequivFields_keys hfs
      have : (Prod.fst ∘ fun kv : String × Json => (kv.1, stableStringify kv.2)) =
          Prod.fst := by
        funext kv; rfl
      rw [this, ← hkeys]
      exact hnd
    have hsort : sortByKey (stringifyFields fs) = sortByKey (stringifyFields gs) := by
      rw [h1]
      exact sortByKey_eq_of_perm h2 hnd'
    simp only [stableStringify]
    rw [hsort]

theorem stringifyItems_equiv : ∀ {xs ys : List Json}, JEquivItems xs ys →
    (∀ j ∈ xs, Json.WF j) → stringifyItems xs = stringifyItems ys
  | _, _, JEquivItems.nil, _ => rfl
  | _, _, @JEquivItems.cons x y xs ys hxy ht, hwf => by
    simp only [stringifyItems]
    rw [stableStringify_equiv hxy (hwf x (List.mem_cons_self _ _)),
      stringifyItems_equiv ht (fun j hj => hwf j (List.mem_cons_of_mem _ hj))]

theorem stringifyFields_equiv : ∀ {fs gs : List (String × Json)}, JEquivFields fs gs →
    (∀ kv ∈ fs, Json.WF kv.2) → stringifyFields fs = stringifyFields gs
  | _, _, JEquivFields.nil, _ => rfl
  | _, _, @JEquivFields.cons k v w fs gs hvw ht, hwf => by
    simp only [stringifyFields]
    rw [stableStringify_equiv hvw (hwf (k, v) (List.mem_cons_self _ _)),
      stringifyFields_equiv ht (fun kv hkv => hwf kv (List.mem_cons_of_mem _ hkv))]

end

/-- C5: the canonicalization used for signatures is deterministic and
order-independent for mappings: payloads equal as trees of JSON values —
objects compared as key-value sets regardless of key insertion order,
arrays in order — stringify identically, and hence produce the same
signature for the same session and tool. -/
theorem claim_C5_canonicalization_order_independent {a b : Json}
    (h : JEquiv a b) (wf : Json.WF a) :
    stableStringify a = stableStringify b ∧
      ∀ sessionId tool : String,
        computeSignature sessionId tool a = computeSignature sessionId tool b := by
  have hs := stableStringify_equiv h wf
  exact ⟨hs, fun s t => by simp [computeSignature, hs]⟩

/-- Witness for C5 at a concrete pair of payloads differing only in key
insertion order. -/
theorem claim_C5_witness :
    JEquiv (Json.obj [("b", Json.null), ("a", Json.bool true)])
        (Json.obj [("a", Json.bool true), ("b", Json.null)]) ∧
      Json.WF (Json.obj [("b", Json.null), ("a", Json.bool true)]) ∧
      stableStringify (Json.obj [("b", Json.null), ("a", Json.bool true)]) =
        stableStringify (Json.obj [("a", Json.bool true), ("b", Json.null)]) := by
  have hfields :
      JEquivFields [("b", Json.null), ("a", Json.bool true)]
        [("b", Json.null), ("a", Json.bool true)] :=
    JEquivFields.cons JEquiv.null (JEquivFields.cons (JEquiv.bool true) JEquivFields.nil)
  have hperm :
      ([("b", Json.null), ("a", Json.bool true)] :
          List (String × Json)).Perm [("a", Json.bool true), ("b", Json.null)] :=
    List.Perm.swap ("a", Json.bool true) ("b", Json.null) []
  have hequiv := JEquiv.obj hfields hperm
  have hwf : Json.WF (Json.obj [("b", Json.null), ("a", Json.bool true)]) := by
    refine Json.WF.obj ?_ ?_
    · simp
    · intro kv hkv
      rcases List.mem_cons.mp hkv with hkv | hkv
      · rw [hkv]; exact Json.WF.null
      · rcases List.mem_cons.mp hkv with hkv | hkv
        · rw [hkv]; exact Json.WF.bool true
        · cases hkv
  exact ⟨hequiv, hwf,
    (claim_C5_canonicalization_order_independent hequiv hwf).1⟩

/-! ### Claims about the staged-execution store (C1, C10) -/

/-- C1: for every session, tool and payload, `recordPlan` then
`recordDryRun` (with an approver) then `validateConfirm` — with the
action identifier allocated by `recordPlan` and before the approval
expiry — succeeds and returns the dry_run stage record, and a subsequent
`validateConfirm` with any payload whose signature differs fails with the
payload-mismatch error. -/
theorem claim_C1_plan_dry_run_confirm (st : ActionStateStore) (a₁ : String)
    (n₁ n₂ n₃ n₄ : Nat) (s t : String) (P r₁ r₂ : Json) (rb : Option String)
    (u : String) (ttl : Option Nat) (hu : u ≠ "")
    (hexp : n₃ ≤ n₂ + ttl.getD DEFAULT_APPROVAL_TTL_MS) :
    ∃ dr : StageRecord,
      (recordDryRun (recordPlan st a₁ n₁ s t P r₁ rb).2 n₂ s t P r₂ (some u) ttl).1 =
          Except.ok dr ∧
        dr.mode = "dry_run" ∧ dr.actionId = a₁ ∧
        validateConfirm
            (recordDryRun (recordPlan st a₁ n₁ s t P r₁ rb).2 n₂ s t P r₂ (some u) ttl).2
            n₃ a₁ s t P = Except.ok dr ∧
        ∀ P' : Json, computeSignature s t P' ≠ computeSignature s t P →
          validateConfirm
              (recordDryRun (recordPlan st a₁ n₁ s t P r₁ rb).2 n₂ s t P r₂ (some u) ttl).2
              n₄ a₁ s t P' =
            Except.error "Confirmation payload differs from the approved dry_run." := by
  have hu' : ¬ (u = "") := hu
  have hlt : ¬ (n₂ + ttl.getD DEFAULT_APPROVAL_TTL_MS < n₃) := not_lt.mpr hexp
  refine ⟨{ actionId := a₁, mode := "dry_run", sessionId := s, tool := t,
            payload := P, result := r₂, timestamp := n₂,
            metadata := { requestedBy := rb, approvedBy := some u,
                          approvedAt := some n₂,
                          expiresAt := some (n₂ + ttl.getD DEFAULT_APPROVAL_TTL_MS) } },
      ?_, rfl, rfl, ?_, ?_⟩
  · simp only [recordPlan, recordDryRun, mapGet_set_self]
    simp
  · simp only [recordPlan, recordDryRun, validateConfirm, mapGet_set_self]
    simp [strTruthy, expiredCheck, hu', hlt, mapGet_set_self]
  · intro P' hP'
    simp only [recordPlan, recordDryRun, validateConfirm, mapGet_set_self]
    simp [hP', mapGet_set_self]

/-- C10: the store operations are atomic on failure — whenever
`recordDryRun` or `recordConfirm` returns an error, the returned store
state (lifecycle map, signature index and event ledger) equals the input
state, and `validateConfirm` by construction performs no mutation at all
(its embedding consumes the store and returns only the outcome, because
the source function contains no assignment on any path). -/
theorem claim_C10_store_atomic_on_failure (st : ActionStateStore) (now : Nat)
    (actionId sessionId tool : String) (payload result : Json)
    (approvedBy confirmedBy : Option String) (approvalTtlMs : Option Nat) :
    (∀ e : String,
        (recordDryRun st now sessionId tool payload result approvedBy approvalTtlMs).1 =
            Except.error e →
          (recordDryRun st now sessionId tool payload result approvedBy approvalTtlMs).2 = st) ∧
      (∀ e : String,
        (recordConfirm st now actionId sessionId tool payload result confirmedBy).1 =
            Except.error e →
          (recordConfirm st now actionId sessionId tool payload result confirmedBy).2 = st) := by
  constructor
  · intro e he
    revert he
    simp only [recordDryRun]
    split
    · intro _; rfl
    · split
      · intro _; rfl
      · split
        · intro _; rfl
        · split
          · intro _; rfl
          · intro hcontr; simp at hcontr
  · intro e he
    revert he
    simp only [recordConfirm]
    split
    · intro _; rfl
    · intro hcontr; simp at hcontr

/-- Witness for C1 at concrete inputs. -/
theorem claim_C1_witness :
    ("approver" : String) ≠ "" ∧
      (5 : Nat) ≤ 5 + (some 0 : Option Nat).getD DEFAULT_APPROVAL_TTL_MS ∧
      ∃ dr : StageRecord,
        (recordDryRun (recordPlan ⟨[], [], []⟩ "A" 4 "s" "t" Json.null Json.null none).2
            5 "s" "t" Json.null Json.null (some "approver") (some 0)).1 = Except.ok dr ∧
          dr.mode = "dry_run" ∧ dr.actionId = "A" ∧
          validateConfirm
              (recordDryRun (recordPlan ⟨[], [], []⟩ "A" 4 "s" "t" Json.null Json.null none).2
                5 "s" "t" Json.null Json.null (some "approver") (some 0)).2
              5 "A" "s" "t" Json.null = Except.ok dr ∧
          ∀ P' : Json, computeSignature "s" "t" P' ≠ computeSignature "s" "t" Json.null →
            validateConfirm
                (recordDryRun (recordPlan ⟨[], [], []⟩ "A" 4 "s" "t" Json.null Json.null none).2
                  5 "s" "t" Json.null Json.null (some "approver") (some 0)).2
                6 "A" "s" "t" P' =
              Except.error "Confirmation payload differs from the approved dry_run." :=
  ⟨by decide, by decide,
    claim_C1_plan_dry_run_confirm ⟨[], [], []⟩ "A" 4 5 5 6 "s" "t" Json.null Json.null
      Json.null none "approver" (some 0) (by decide) (by decide)⟩

/-- Witness for C10 at concrete inputs (a dry_run without a prior plan
fails and leaves the empty store unchanged). -/
theorem claim_C10_witness :
    (recordDryRun ⟨[], [], []⟩ 0 "s" "t" Json.null Json.null none none).1 =
        Except.error "A prior plan run is required before dry_run." ∧
      (recordDryRun ⟨[], [], []⟩ 0 "s" "t" Json.null Json.null none none).2 =
        (⟨[], [], []⟩ : ActionStateStore) :=
  ⟨rfl,
    (claim_C10_store_atomic_on_failure ⟨[], [], []⟩ 0 "a" "s" "t" Json.null Json.null
        none none none).1
      "A prior plan run is required before dry_run." rfl⟩

/-! ### C2: confirm-once is enforced only through `validateConfirm` -/

/-- Counterexample to C2 as stated: after plan, dry_run and a first
`recordConfirm` (stamping `confirmedAt = 2`), calling `recordConfirm`
again succeeds and replaces the lifecycle's confirm stage (the stamp
becomes `3`) — `recordConfirm` itself never checks for an existing
confirm stage. -/
theorem claim_C2_counterexample :
    (((mapGet (recordConfirm (recordDryRun
            (recordPlan ⟨[], [], []⟩ "A" 0 "s" "t" Json.null Json.null none).2
            1 "s" "t" Json.null Json.null (some "u") (some 10)).2
          2 "A" "s" "t" Json.null Json.null (some "u")).2.lifecycles "A").bind
        (fun lc => lc.confirm)).map (fun c => c.metadata.confirmedAt) = some (some 2)) ∧
      (recordConfirm (recordConfirm (recordDryRun
            (recordPlan ⟨[], [], []⟩ "A" 0 "s" "t" Json.null Json.null none).2
            1 "s" "t" Json.null Json.null (some "u") (some 10)).2
          2 "A" "s" "t" Json.null Json.null (some "u")).2
          3 "A" "s" "t" Json.null Json.null (some "u")).1.isOk = true ∧
      (((mapGet (recordConfirm (recordConfirm (recordDryRun
            (recordPlan ⟨[], [], []⟩ "A" 0 "s" "t" Json.null Json.null none).2
            1 "s" "t" Json.null Json.null (some "u") (some 10)).2
          2 "A" "s" "t" Json.null Json.null (some "u")).2
          3 "A" "s" "t" Json.null Json.null (some "u")).2.lifecycles "A").bind
        (fun lc => lc.confirm)).map (fun c => c.metadata.confirmedAt) = some (some 3)) := by
  refine ⟨rfl, rfl, rfl⟩

/-- C2 amended: the confirm-once invariant holds for the
validate-then-record protocol the host actually runs — once a lifecycle
carries a confirm stage, `validateConfirm` on its identifier never
succeeds (every path returns an error), so a guarded confirm cannot be
recorded twice; `recordConfirm` called directly, however, does not check
and overwrites (see the counterexample). -/
theorem claim_C2_confirm_guarded_once (st : ActionStateStore) (now : Nat)
    (actionId sessionId tool : String) (payload : Json)
    (lc : ActionLifecycle) (c : StageRecord)
    (hlc : mapGet st.lifecycles actionId = some lc)
    (hc : lc.confirm = some c) :
    (validateConfirm st now actionId sessionId tool payload).isOk = false := by
  simp only [validateConfirm, hlc]
  split
  · rfl
  · split
    · rfl
    · split
      · rfl
      · split
        · rfl
        · split
          · rfl
          · split
            · rfl
            · rw [hc]
              rfl

/-- Witness for the amended C2 at a concrete confirmed lifecycle. -/
theorem claim_C2_amended_witness :
    (validateConfirm (recordConfirm (recordDryRun
          (recordPlan ⟨[], [], []⟩ "A" 0 "s" "t" Json.null Json.null none).2
          1 "s" "t" Json.null Json.null (some "u") (some 10)).2
        2 "A" "s" "t" Json.null Json.null (some "u")).2
      3 "A" "s" "t" Json.null).isOk = false := by
  exact claim_C2_confirm_guarded_once _ 3 "A" "s" "t" Json.null _ _ rfl rfl

/-! ### C3: re-planning a signature evicts the old lifecycle by id too -/

/-- Counterexample to C3 as stated: two `recordPlan` calls with the same
`(session, tool, payload)`; the signature index points at the new
identifier (as the claim says), but the superseded lifecycle is deleted
from the lifecycle map (`this.lifecycles.delete(existing)`), so
`validateConfirm` on the old identifier does fail with the
unknown-action error, contrary to the claim. -/
theorem claim_C3_counterexample :
    (mapGet (recordPlan (recordPlan ⟨[], [], []⟩ "A1" 0 "s" "t" Json.null Json.null
          none).2 "A2" 1 "s" "t" Json.null Json.null none).2.signatureIndex
        (computeSignature "s" "t" Json.null) = some "A2") ∧
      (mapGet (recordPlan (recordPlan ⟨[], [], []⟩ "A1" 0 "s" "t" Json.null Json.null
          none).2 "A2" 1 "s" "t" Json.null Json.null none).2.lifecycles "A1" = none) ∧
      (validateConfirm (recordPlan (recordPlan ⟨[], [], []⟩ "A1" 0 "s" "t" Json.null
          Json.null none).2 "A2" 1 "s" "t" Json.null Json.null none).2
        2 "A1" "s" "t" Json.null =
        Except.error "Unknown action. Please re-run plan and dry_run.") := by
  refine ⟨rfl, rfl, rfl⟩

/-- C3 amended: when `recordPlan` computes a signature that already has a
live lifecycle, the previous entry is removed from the signature index
(only the new identifier is reachable by that signature) and the previous
lifecycle is also deleted from the lifecycle map, so `validateConfirm` on
the old identifier fails with the unknown-action error. -/
theorem claim_C3_plan_supersede_evicts (st : ActionStateStore)
    (oldId newId : String) (now : Nat) (s t : String) (P r : Json)
    (rb : Option String)
    (hold : mapGet st.signatureIndex (computeSignature s t P) = some oldId)
    (hne : newId ≠ oldId)
    (hnd : (st.lifecycles.map Prod.fst).Nodup) :
    mapGet (recordPlan st newId now s t P r rb).2.signatureIndex
        (computeSignature s t P) = some newId ∧
      mapGet (recordPlan st newId now s t P r rb).2.lifecycles oldId = none ∧
      ∀ (n : Nat) (payload : Json),
        validateConfirm (recordPlan st newId now s t P r rb).2 n oldId s t payload =
          Except.error "Unknown action. Please re-run plan and dry_run." := by
  have hdel : mapGet (recordPlan st newId now s t P r rb).2.lifecycles oldId = none := by
    simp only [recordPlan, hold]
    rw [mapGet_set_ne _ _ _ _ hne]
    exact mapGet_delete_self st.lifecycles oldId hnd
  refine ⟨?_, hdel, ?_⟩
  · simp only [recordPlan, mapGet_set_self]
  · intro n payload
    simp only [validateConfirm, hdel]

/-- Witness for the amended C3 at concrete inputs. -/
theorem claim_C3_amended_witness :
    (mapGet (recordPlan (recordPlan ⟨[], [], []⟩ "A1" 0 "s" "t" Json.null Json.null
          none).2 "A2" 1 "s" "t" Json.null Json.null none).2.signatureIndex
        (computeSignature "s" "t" Json.null) = some "A2") ∧
      (mapGet (recordPlan (recordPlan ⟨[], [], []⟩ "A1" 0 "s" "t" Json.null Json.null
          none).2 "A2" 1 "s" "t" Json.null Json.null none).2.lifecycles "A1" = none) := by
  have h := claim_C3_plan_supersede_evicts
    (recordPlan ⟨[], [], []⟩ "A1" 0 "s" "t" Json.null Json.null none).2
    "A1" "A2" 1 "s" "t" Json.null Json.null none rfl (by decide) (by
      show (List.map Prod.fst [("A1",
        { actionId := "A1", sessionId := "s", tool := "t", payload := Json.null,
          signature := computeSignature "s" "t" Json.null,
          plan := some
            { actionId := "A1", mode := "plan", sessionId := "s", tool := "t",
              payload := Json.null, result := Json.null, timestamp := 0,
              metadata := { requestedBy := none } },
          dryRun := none, confirm := none : ActionLifecycle})]).Nodup
      simp)
  exact ⟨h.1, h.2.1⟩

/-! ### C4: expiry is strict, so a zero TTL alone does not force failure -/

/-- Counterexample to C4 as stated: `recordDryRun` with `approvalTtlMs = 0`
at time 5 stamps `expiresAt = 5`; a `validateConfirm` in the same
millisecond (`now = 5`) does not fail — the source only rejects when
`expiresAt < Date.now()` strictly — so it is not the case that a zero TTL
makes every subsequent `validateConfirm` fail with the expiry error. -/
theorem claim_C4_counterexample :
    (validateConfirm (recordDryRun
          (recordPlan ⟨[], [], []⟩ "A" 5 "s" "t" Json.null Json.null none).2
          5 "s" "t" Json.null Json.null (some "u") (some 0)).2
        5 "A" "s" "t" Json.null).isOk = true := by
  rfl

/-- C4 amended: after `recordPlan` and `recordDryRun` (with an approver),
every `validateConfirm` on the allocated identifier at a time strictly
past the stamped expiry `now₂ + ttl` — with a nonzero stamp, since the
source guards the comparison behind the truthiness of `expiresAt` —
fails with the expiry error; with `approvalTtlMs = 0` this means every
validation from the next millisecond on fails, while one in the same
millisecond as the dry_run still succeeds (see the counterexample). -/
theorem claim_C4_expired_validate_fails (st : ActionStateStore) (a₁ : String)
    (n₁ n₂ n₃ : Nat) (s t : String) (P r₁ r₂ : Json) (rb : Option String)
    (u : String) (ttl : Option Nat) (hu : u ≠ "")
    (hnz : n₂ + ttl.getD DEFAULT_APPROVAL_TTL_MS ≠ 0)
    (hlt : n₂ + ttl.getD DEFAULT_APPROVAL_TTL_MS < n₃) :
    validateConfirm
        (recordDryRun (recordPlan st a₁ n₁ s t P r₁ rb).2 n₂ s t P r₂ (some u) ttl).2
        n₃ a₁ s t P =
      Except.error "Dry_run approval has expired. Please run a new dry_run." := by
  have hu' : ¬ (u = "") := hu
  simp only [recordPlan, recordDryRun, validateConfirm, mapGet_set_self]
  simp [strTruthy, expiredCheck, hu', hnz, hlt, mapGet_set_self]

/-- Witness for the amended C4: a zero TTL stamped at time 5 and a
validation at time 6. -/
theorem claim_C4_amended_witness :
    ("u" : String) ≠ "" ∧
      (5 : Nat) + (some 0 : Option Nat).getD DEFAULT_APPROVAL_TTL_MS ≠ 0 ∧
      (5 : Nat) + (some 0 : Option Nat).getD DEFAULT_APPROVAL_TTL_MS < 6 ∧
      validateConfirm (recordDryRun
          (recordPlan ⟨[], [], []⟩ "A" 5 "s" "t" Json.null Json.null none).2
          5 "s" "t" Json.null Json.null (some "u") (some 0)).2
        6 "A" "s" "t" Json.null =
        Except.error "Dry_run approval has expired. Please run a new dry_run." :=
  ⟨by decide, by decide, by decide,
    claim_C4_expired_validate_fails ⟨[], [], []⟩ "A" 5 5 6 "s" "t" Json.null Json.null
      Json.null none "u" (some 0) (by decide) (by decide) (by decide)⟩

/-! ### C9: initialize is once-per-session -/

/-- C9: on an uninitialized session, `initialize` marks the session
initialized, stores the client descriptor, and returns the protocol
version, the declared capabilities and the full tool catalog; on an
initialized session, any further `initialize` returns the JSON-RPC error
`-32600` and leaves both the `initialized` flag and the stored client
descriptor exactly as they were. -/
theorem claim_C9_initialize_once (tools : List ToolSpec) (s : Session)
    (client : Option Json) (hs : s.initialized = false) :
    (handleInitialize tools s client).2 =
        RpcReply.result
          { protocolVersion := "2024-05-22",
            capabilities := { list := true, call := true, streaming := true },
            tools } ∧
      (handleInitialize tools s client).1.initialized = true ∧
      (handleInitialize tools s client).1.clientInfo = some (client.getD Json.null) ∧
      ∀ (tools' : List ToolSpec) (s' : Session) (client' : Option Json),
        s'.initialized = true →
        handleInitialize tools' s' client' =
          (s', RpcReply.error (-32600) "Session already initialized") := by
  refine ⟨?_, ?_, ?_, ?_⟩
  · simp [handleInitialize, hs]
  · simp [handleInitialize, hs]
  · simp [handleInitialize, hs]
  · intro tools' s' client' hs'
    simp [handleInitialize, hs']

/-- Witness for C9 at a concrete session and catalog. -/
theorem claim_C9_witness :
    ((⟨false, none⟩ : Session).initialized = false) ∧
      (handleInitialize [⟨"echo", "echo tool", Json.null⟩] ⟨false, none⟩ none).1.initialized
          = true ∧
      (handleInitialize [⟨"echo", "echo tool", Json.null⟩]
          (handleInitialize [⟨"echo", "echo tool", Json.null⟩] ⟨false, none⟩ none).1
          none =
        ((handleInitialize [⟨"echo", "echo tool", Json.null⟩] ⟨false, none⟩ none).1,
          RpcReply.error (-32600) "Session already initialized")) := by
  have h := claim_C9_initialize_once [⟨"echo", "echo tool", Json.null⟩] ⟨false, none⟩
    none rfl
  exact ⟨rfl, h.2.1, h.2.2.2 [⟨"echo", "echo tool", Json.null⟩] _ none h.2.1⟩

/-! ### C6: text-frame round-trip through the codec -/

theorem land_small : ∀ n < 128, n &&& 127 = n ∧ n &&& 128 = 0 := by decide

/-- C6: decoding the buffer produced by `encodeFrame(p, 0x1)` yields a
frame with `fin = true`, opcode `0x1`, payload `p`, and `totalLength`
equal to the encoded buffer's length, for every payload up to the 32-bit
length limit. -/
theorem claim_C6_encode_decode_roundtrip (p : List Nat)
    (h : p.length < 4294967296) :
    decodeFrame (encodeFrame p 0x1) =
      DecodeResult.frame
        { fin := true, opcode := 0x1, payload := p,
          totalLength := (encodeFrame p 0x1).length } := by
  rcases Nat.lt_or_ge p.length 126 with h126 | h126
  · -- 7-bit length
    have henc : encodeFrame p 0x1 = 129 :: p.length :: p := by
      simp [encodeFrame, h126]
    have hl := land_small p.length (by omega)
    rw [henc]
    rw [decodeFrame, if_neg (by simp)]
    simp only [byteAt, List.getD_cons_zero, List.getD_cons_succ]
    rw [hl.1, if_neg (by omega : p.length ≠ 126), if_neg (by omega : p.length ≠ 127)]
    rw [finishDecode, if_neg (by simp [hl.2])]
    rw [if_neg (by simp; omega)]
    simp [List.take_length, DecodedFrame.mk.injEq]
    exact ⟨by decide, by omega⟩
  · rcases Nat.lt_or_ge p.length 65536 with h65536 | h65536
    · -- 16-bit length
      have hn1 : ¬ p.length < 126 := by omega
      have henc : encodeFrame p 0x1 =
          129 :: 126 :: p.length / 256 :: p.length % 256 :: p := by
        simp [encodeFrame, hn1, h65536, toBE16]
      rw [henc]
      rw [decodeFrame, if_neg (by simp)]
      simp only [byteAt, List.getD_cons_zero, List.getD_cons_succ]
      rw [if_pos (by decide : (126 : Nat) &&& 127 = 126)]
      rw [if_neg (by simp)]
      have hread : readUInt16BE (129 :: 126 :: p.length / 256 :: p.length % 256 :: p) 2 =
          p.length := by
        simp [readUInt16BE, byteAt, List.getD_cons_zero, List.getD_cons_succ]
        omega
      rw [hread]
      have hm : ((126 : Nat) &&& 128) = 0 := by decide
      rw [finishDecode, if_neg (by simp [hm])]
      rw [if_neg (by simp; omega)]
      simp [List.take_length, DecodedFrame.mk.injEq]
      exact ⟨by decide, by omega⟩
    · -- 64-bit length (32 usable bits)
      have hn1 : ¬ p.length < 126 := by omega
      have hn2 : ¬ p.length < 65536 := by omega
      have henc : encodeFrame p 0x1 =
          129 :: 127 :: 0 :: 0 :: 0 :: 0 :: p.length / 16777216 ::
            p.length / 65536 % 256 :: p.length / 256 % 256 :: p.length % 256 :: p := by
        simp [encodeFrame, hn1, hn2, toBE32]
      rw [henc]
      rw [decodeFrame, if_neg (by simp)]
      simp only [byteAt, List.getD_cons_zero, List.getD_cons_succ]
      rw [if_neg (by decide : ¬ ((127 : Nat) &&& 127 = 126))]
      rw [if_pos (by decide : (127 : Nat) &&& 127 = 127)]
      rw [if_neg (by simp)]
      have hzero : readUInt32BE (129 :: 127 :: 0 :: 0 :: 0 :: 0 :: p.length / 16777216 ::
          p.length / 65536 % 256 :: p.length / 256 % 256 :: p.length % 256 :: p) 2 = 0 := by
        simp [readUInt32BE, byteAt, List.getD_cons_zero, List.getD_cons_succ]
      rw [if_neg (by simp [hzero])]
      have hread : readUInt32BE (129 :: 127 :: 0 :: 0 :: 0 :: 0 :: p.length / 16777216 ::
          p.length / 65536 % 256 :: p.length / 256 % 256 :: p.length % 256 :: p) 6 =
          p.length := by
        simp [readUInt32BE, byteAt, List.getD_cons_zero, List.getD_cons_succ]
        omega
      rw [hread]
      have hm : ((127 : Nat) &&& 128) = 0 := by decide
      rw [finishDecode, if_neg (by simp [hm])]
      rw [if_neg (by simp; omega)]
      simp [List.take_length, DecodedFrame.mk.injEq]
      exact ⟨by decide, by omega⟩

/-- Witness for C6 at a concrete three-byte payload. -/
theorem claim_C6_witness :
    ([65, 66, 67] : List Nat).length < 4294967296 ∧
      decodeFrame (encodeFrame [65, 66, 67] 0x1) =
        DecodeResult.frame
          { fin := true, opcode := 0x1, payload := [65, 66, 67],
            totalLength := (encodeFrame [65, 66, 67] 0x1).length } :=
  ⟨by decide, claim_C6_encode_decode_roundtrip [65, 66, 67] (by decide)⟩

/-! ### Decode reads only the frame's own bytes -/

theorem byteAt_append_left {l r : List Nat} {i : Nat} (h : i < l.length) :
    byteAt (l ++ r) i = byteAt l i :=
  List.getD_append l r 0 i h

theorem byteAt_take {l : List Nat} {m i : Nat} (h : i < m) :
    byteAt (l.take m) i = byteAt l i := by
  unfold byteAt
  by_cases hi : i < l.length
  · have h1 : i < (l.take m).length := by
      simp only [List.length_take]
      omega
    rw [List.getD_eq_getElem _ _ h1, List.getD_eq_getElem _ _ hi]
    exact List.getElem_take l
  · have h1 : (l.take m).length ≤ i := by
      simp only [List.length_take]
      omega
    rw [List.getD_eq_default _ _ h1, List.getD_eq_default _ _ (by omega)]

theorem readUInt16BE_append_left {l r : List Nat} {off : Nat}
    (h : off + 2 ≤ l.length) : readUInt16BE (l ++ r) off = readUInt16BE l off := by
  unfold readUInt16BE
  rw [byteAt_append_left (by omega), byteAt_append_left (by omega)]

theorem readUInt16BE_take {l : List Nat} {m off : Nat} (h : off + 2 ≤ m) :
    readUInt16BE (l.take m) off = readUInt16BE l off := by
  unfold readUInt16BE
  rw [byteAt_take (by omega), byteAt_take (by omega)]

theorem readUInt32BE_append_left {l r : List Nat} {off : Nat}
    (h : off + 4 ≤ l.length) : readUInt32BE (l ++ r) off = readUInt32BE l off := by
  unfold readUInt32BE
  rw [byteAt_append_left (by omega), byteAt_append_left (by omega),
    byteAt_append_left (by omega), byteAt_append_left (by omega)]

theorem readUInt32BE_take {l : List Nat} {m off : Nat} (h : off + 4 ≤ m) :
    readUInt32BE (l.take m) off = readUInt32BE l off := by
  unfold readUInt32BE
  rw [byteAt_take (by omega), byteAt_take (by omega), byteAt_take (by omega),
    byteAt_take (by omega)]

theorem drop_take_append {l r : List Nat} {off n : Nat} (h : off + n ≤ l.length) :
    ((l ++ r).drop off).take n = (l.drop off).take n := by
  rw [List.drop_append_eq_append_drop]
  rw [List.take_append_of_le_length]
  simp only [List.length_drop]
  omega

/-- A successful `finishDecode` characterizes the frame's `totalLength`
and is bounded by the buffer. -/
theorem finishDecode_frame_bounds {b : List Nat} {fin : Bool} {op : Nat}
    {m : Bool} {pl off : Nat} {fr : DecodedFrame}
    (h : finishDecode b fin op m pl off = DecodeResult.frame fr) :
    fr.totalLength = (cond m (off + 4) off) + pl ∧ fr.totalLength ≤ b.length := by
  unfold finishDecode at h
  cases m with
  | true =>
    rw [if_pos rfl] at h
    split at h
    · cases h
    · split at h
      · cases h
      · cases h
        refine ⟨by simp, by simp; omega⟩
  | false =>
    rw [if_neg (by simp)] at h
    split at h
    · cases h
    · cases h
      refine ⟨by simp, by simp; omega⟩

/-- A successful `finishDecode` is unchanged by appending bytes. -/
theorem finishDecode_append {b r : List Nat} {fin : Bool} {op : Nat}
    {m : Bool} {pl off : Nat} {fr : DecodedFrame}
    (h : finishDecode b fin op m pl off = DecodeResult.frame fr) :
    finishDecode (b ++ r) fin op m pl off = DecodeResult.frame fr := by
  unfold finishDecode at h ⊢
  cases m with
  | true =>
    rw [if_pos rfl] at h ⊢
    split at h
    · cases h
    · split at h
      · cases h
      · rename_i h4 hpl
        rw [if_neg (by simp only [List.length_append]; omega)]
        rw [if_neg (by simp only [List.length_append]; omega)]
        rw [drop_take_append (by omega), drop_take_append (by omega)]
        exact h
  | false =>
    rw [if_neg (by simp)] at h ⊢
    split at h
    · cases h
    · rename_i hpl
      rw [if_neg (by simp only [List.length_append]; omega)]
      rw [drop_take_append (by omega)]
      exact h

/-- `finishDecode` on a buffer shorter than the frame it would need is the
incomplete sentinel. -/
theorem finishDecode_incomplete_of_short {q : List Nat} {fin : Bool} {op : Nat}
    {m : Bool} {pl off : Nat} (h : q.length < (cond m (off + 4) off) + pl) :
    finishDecode q fin op m pl off = DecodeResult.incomplete := by
  unfold finishDecode
  cases m with
  | true =>
    rw [if_pos rfl]
    simp only [cond] at h
    by_cases h4 : q.length < off + 4
    · rw [if_pos h4]
    · rw [if_neg h4, if_pos (by omega)]
  | false =>
    rw [if_neg (by simp)]
    simp only [cond] at h
    rw [if_pos (by omega)]

theorem le_cond_off (m : Bool) (off pl : Nat) :
    off + pl ≤ (cond m (off + 4) off) + pl := by
  cases m <;> simp only [Bool.cond_true, Bool.cond_false] <;> omega

/-- A decoded frame's `totalLength` is at least the 2-byte base header and
at most the buffer length. -/
theorem decodeFrame_bounds {l : List Nat} {f : DecodedFrame}
    (h : decodeFrame l = DecodeResult.frame f) :
    2 ≤ f.totalLength ∧ f.totalLength ≤ l.length := by
  have h2 : ¬ l.length < 2 := by
    intro hh
    rw [decodeFrame, if_pos hh] at h
    cases h
  rw [decodeFrame, if_neg h2] at h
  simp only at h
  split at h
  · split at h
    · cases h
    · have hb := finishDecode_frame_bounds h
      have hge := le_cond_off (decide (byteAt l 1 &&& 128 ≠ 0)) 4 (readUInt16BE l 2)
      constructor
      · omega
      · exact hb.2
  · split at h
    · split at h
      · cases h
      · split at h
        · cases h
        · have hb := finishDecode_frame_bounds h
          have hge := le_cond_off (decide (byteAt l 1 &&& 128 ≠ 0)) 10 (readUInt32BE l 6)
          constructor
          · omega
          · exact hb.2
    · have hb := finishDecode_frame_bounds h
      have hge := le_cond_off (decide (byteAt l 1 &&& 128 ≠ 0)) 2 (byteAt l 1 &&& 127)
      constructor
      · omega
      · exact hb.2

/-- A successfully decoded frame is unchanged by appending more bytes to
the buffer: the decoder reads only positions below `totalLength`. -/
theorem decodeFrame_append {l r : List Nat} {f : DecodedFrame}
    (h : decodeFrame l = DecodeResult.frame f) :
    decodeFrame (l ++ r) = DecodeResult.frame f := by
  have h2 : ¬ l.length < 2 := by
    intro hh
    rw [decodeFrame, if_pos hh] at h
    cases h
  rw [decodeFrame, if_neg h2] at h
  simp only at h
  rw [decodeFrame, if_neg (by simp only [List.length_append]; omega)]
  simp only
  rw [byteAt_append_left (by omega), byteAt_append_left (by omega)]
  split at h
  · rename_i h126
    rw [if_pos h126]
    have h4 : ¬ l.length < 4 := by
      intro hh
      rw [if_pos hh] at h
      cases h
    rw [if_neg h4] at h
    rw [if_neg (by simp only [List.length_append]; omega)]
    rw [readUInt16BE_append_left (by omega)]
    exact finishDecode_append h
  · rename_i h126
    rw [if_neg h126]
    split at h
    · rename_i h127
      rw [if_pos h127]
      have h10 : ¬ l.length < 10 := by
        intro hh
        rw [if_pos hh] at h
        cases h
      rw [if_neg h10] at h
      rw [if_neg (by simp only [List.length_append]; omega)]
      rw [readUInt32BE_append_left (by omega)]
      split at h
      · cases h
      · rename_i hhigh
        rw [if_neg hhigh]
        rw [readUInt32BE_append_left (by omega)]
        exact finishDecode_append h
    · rename_i h127
      rw [if_neg h127]
      exact finishDecode_append h

/-- Any proper prefix of a buffer holding exactly one complete frame
decodes to the incomplete sentinel. -/
theorem decodeFrame_take_incomplete {l : List Nat} {f : DecodedFrame}
    (h : decodeFrame l = DecodeResult.frame f) (hT : f.totalLength = l.length)
    {m : Nat} (hm : m < l.length) :
    decodeFrame (l.take m) = DecodeResult.incomplete := by
  have h2 : ¬ l.length < 2 := by
    intro hh
    rw [decodeFrame, if_pos hh] at h
    cases h
  rw [decodeFrame, if_neg h2] at h
  simp only at h
  have hq : (l.take m).length = m := by
    simp only [List.length_take]
    omega
  by_cases hm2 : m < 2
  · rw [decodeFrame, if_pos (by omega)]
  · rw [decodeFrame, if_neg (by omega)]
    simp only
    rw [byteAt_take (by omega), byteAt_take (by omega)]
    split at h
    · rename_i h126
      rw [if_pos h126]
      have h4 : ¬ l.length < 4 := by
        intro hh
        rw [if_pos hh] at h
        cases h
      rw [if_neg h4] at h
      have hb := finishDecode_frame_bounds h
      by_cases hm4 : m < 4
      · rw [if_pos (by omega)]
      · rw [if_neg (by omega)]
        rw [readUInt16BE_take (by omega)]
        exact finishDecode_incomplete_of_short (by omega)
    · rename_i h126
      rw [if_neg h126]
      split at h
      · rename_i h127
        rw [if_pos h127]
        have h10 : ¬ l.length < 10 := by
          intro hh
          rw [if_pos hh] at h
          cases h
        rw [if_neg h10] at h
        split at h
        · cases h
        · rename_i hhigh
          have hb := finishDecode_frame_bounds h
          by_cases hm10 : m < 10
          · rw [if_pos (by omega)]
          · rw [if_neg (by omega)]
            rw [show readUInt32BE (l.take m) 2 = readUInt32BE l 2 from
              readUInt32BE_take (by omega)]
            rw [show readUInt32BE (l.take m) 6 = readUInt32BE l 6 from
              readUInt32BE_take (by omega)]
            rw [if_neg hhigh]
            exact finishDecode_incomplete_of_short (by omega)
      · rename_i h127
        rw [if_neg h127]
        have hb := finishDecode_frame_bounds h
        exact finishDecode_incomplete_of_short (by omega)

/-! ### Step equations for the data-handler loop -/

theorem processBuffer_incomplete {buf : List Nat} {closed : Bool}
    (h : decodeFrame buf = DecodeResult.incomplete) :
    processBuffer buf closed = (⟨buf, closed⟩, []) := by
  unfold processBuffer
  split
  · rfl
  · rename_i m heq; rw [h] at heq; cases heq
  · rename_i f heq; rw [h] at heq; cases heq

theorem processBuffer_text_fin {buf : List Nat} {closed : Bool} {f : DecodedFrame}
    (h : decodeFrame buf = DecodeResult.frame f) (hop : f.opcode = 0x1)
    (hfin : f.fin = true) :
    processBuffer buf closed =
      ((processBuffer (buf.drop f.totalLength) closed).1,
        ConnEvent.message f.payload ::
          (processBuffer (buf.drop f.totalLength) closed).2) := by
  conv_lhs => rw [processBuffer.eq_def]
  split
  · rename_i heq; rw [h] at heq; cases heq
  · rename_i m heq; rw [h] at heq; cases heq
  · rename_i f' heq
    rw [h] at heq
    cases heq
    rw [if_pos hop, if_pos hfin]

theorem processBuffer_text_frag {buf : List Nat} {closed : Bool} {f : DecodedFrame}
    (h : decodeFrame buf = DecodeResult.frame f) (hop : f.opcode = 0x1)
    (hfin : f.fin = false) :
    processBuffer buf closed =
      (⟨buf.drop f.totalLength, true⟩,
        if closed then [] else
          [ConnEvent.closeSent 1003 "Fragmented frames are not supported"]) := by
  unfold processBuffer
  split
  · rename_i heq; rw [h] at heq; cases heq
  · rename_i m heq; rw [h] at heq; cases heq
  · rename_i f' heq
    rw [h] at heq
    cases heq
    rw [if_pos hop, if_neg (by simp [hfin])]

theorem processBuffer_close_frame {buf : List Nat} {closed : Bool} {f : DecodedFrame}
    (h : decodeFrame buf = DecodeResult.frame f) (hop : f.opcode = 0x8) :
    processBuffer buf closed =
      (⟨buf.drop f.totalLength, true⟩,
        [ConnEvent.closeEmitted (decodeCloseFrame f.payload).1
          (decodeCloseFrame f.payload).2]) := by
  unfold processBuffer
  split
  · rename_i heq; rw [h] at heq; cases heq
  · rename_i m heq; rw [h] at heq; cases heq
  · rename_i f' heq
    rw [h] at heq
    cases heq
    rw [if_neg (by simp [hop]), if_pos hop]

theorem processBuffer_ping {buf : List Nat} {closed : Bool} {f : DecodedFrame}
    (h : decodeFrame buf = DecodeResult.frame f) (hop : f.opcode = 0x9) :
    processBuffer buf closed =
      ((processBuffer (buf.drop f.totalLength) closed).1,
        ConnEvent.pongSent f.payload ::
          (processBuffer (buf.drop f.totalLength) closed).2) := by
  conv_lhs => rw [processBuffer.eq_def]
  split
  · rename_i heq; rw [h] at heq; cases heq
  · rename_i m heq; rw [h] at heq; cases heq
  · rename_i f' heq
    rw [h] at heq
    cases heq
    rw [if_neg (by simp [hop]), if_neg (by simp [hop]), if_pos hop]

theorem processBuffer_pong {buf : List Nat} {closed : Bool} {f : DecodedFrame}
    (h : decodeFrame buf = DecodeResult.frame f) (hop : f.opcode = 0xA) :
    processBuffer buf closed = processBuffer (buf.drop f.totalLength) closed := by
  conv_lhs => rw [processBuffer.eq_def]
  split
  · rename_i heq; rw [h] at heq; cases heq
  · rename_i m heq; rw [h] at heq; cases heq
  · rename_i f' heq
    rw [h] at heq
    cases heq
    rw [if_neg (by simp [hop]), if_neg (by simp [hop]), if_neg (by simp [hop]),
      if_pos hop]

theorem streamEvents_cons (f : DecodedFrame) (fs : List DecodedFrame) :
    streamEvents (f :: fs) = frameEvents f ++ streamEvents fs := by
  simp [streamEvents]

theorem streamEvents_append (fs₁ fs₂ : List DecodedFrame) :
    streamEvents (fs₁ ++ fs₂) = streamEvents fs₁ ++ streamEvents fs₂ := by
  simp [streamEvents]

/-! ### Draining a frame-aligned buffer -/

/-- Running the decode loop on a buffer holding a sequence of complete
benign frames followed by an incomplete remainder consumes exactly the
frames, performs their actions in order, and leaves the remainder. -/
theorem processBuffer_frameSeq : ∀ {d : List Nat} {fs : List DecodedFrame},
    FrameSeq d fs → (∀ f ∈ fs, benignFrame f) →
    ∀ {rest : List Nat}, decodeFrame rest = DecodeResult.incomplete →
    ∀ closed : Bool,
    processBuffer (d ++ rest) closed = (⟨rest, closed⟩, streamEvents fs)
  | _, _, FrameSeq.nil, _, rest, hrest, closed =>
    processBuffer_incomplete hrest
  | _, _, @FrameSeq.cons block rest' f fs hdec hlen hseq, hben, rest, hrest, closed => by
    have hdec' : decodeFrame ((block ++ rest') ++ rest) = DecodeResult.frame f := by
      rw [List.append_assoc]
      exact decodeFrame_append hdec
    have hdrop : ((block ++ rest') ++ rest).drop f.totalLength = rest' ++ rest := by
      rw [List.append_assoc, hlen]
      exact List.drop_left block (rest' ++ rest)
    have hbenf : benignFrame f := hben f (List.mem_cons_self _ _)
    have hben' : ∀ g ∈ fs, benignFrame g := fun g hg => hben g (List.mem_cons_of_mem _ hg)
    have ih := processBuffer_frameSeq hseq hben' hrest closed
    rcases hbenf with ⟨hop, hfin⟩ | hop | hop
    · rw [processBuffer_text_fin hdec' hop hfin, hdrop, ih]
      simp [streamEvents_cons, frameEvents, hop]
    · rw [processBuffer_ping hdec' hop, hdrop, ih]
      simp [streamEvents_cons, frameEvents, hop]
    · rw [processBuffer_pong hdec' hop, hdrop, ih]
      simp [streamEvents_cons, frameEvents, hop]

/-- Any cut of a frame-aligned byte stream splits it into the frames that
fit wholly before the cut, an incomplete remainder, and a stream that
resumes cleanly after the cut. -/
theorem frameSeq_split : ∀ {data : List Nat} {fs : List DecodedFrame},
    FrameSeq data fs → ∀ u v : List Nat, data = u ++ v →
    ∃ (fs₁ fs₂ : List DecodedFrame) (d rem : List Nat),
      fs = fs₁ ++ fs₂ ∧ u = d ++ rem ∧ FrameSeq d fs₁ ∧
        decodeFrame rem = DecodeResult.incomplete ∧ FrameSeq (rem ++ v) fs₂
  | _, _, FrameSeq.nil, u, v, heq => by
    rcases List.append_eq_nil.mp heq.symm with ⟨hu, hv⟩
    subst hu
    subst hv
    exact ⟨[], [], [], [], rfl, rfl, FrameSeq.nil, rfl, FrameSeq.nil⟩
  | _, _, @FrameSeq.cons block rest f fs hdec hlen hseq, u, v, heq => by
    by_cases hcase : block.length ≤ u.length
    · have hblock : block = u.take block.length := by
        have h1 := congrArg (List.take block.length) heq
        rwa [List.take_left, List.take_append_of_le_length hcase] at h1
      have hrest : rest = u.drop block.length ++ v := by
        have h1 := congrArg (List.drop block.length) heq
        rwa [List.drop_left, List.drop_append_of_le_length hcase] at h1
      obtain ⟨fs₁, fs₂, d, rem, hfs, hu, hd, hrem, hrv⟩ :=
        frameSeq_split hseq (u.drop block.length) v hrest
      refine ⟨f :: fs₁, fs₂, block ++ d, rem, by simp [hfs], ?_,
        FrameSeq.cons hdec hlen hd, hrem, hrv⟩
      conv_lhs => rw [← List.take_append_drop block.length u]
      rw [← hblock, hu, List.append_assoc]
    · have hu_take : u = block.take u.length := by
        have h1 := congrArg (List.take u.length) heq
        rw [List.take_append_of_le_length (by omega), List.take_left] at h1
        exact h1.symm
      have hrem : decodeFrame u = DecodeResult.incomplete := by
        rw [hu_take]
        exact decodeFrame_take_incomplete hdec hlen (by omega)
      refine ⟨[], f :: fs, [], u, rfl, rfl, FrameSeq.nil, hrem, ?_⟩
      rw [← heq]
      exact FrameSeq.cons hdec hlen hseq

/-- Feeding any chunked delivery of a benign frame-aligned stream to the
data handler consumes the whole stream and performs exactly the frames'
actions, in order, regardless of the chunk boundaries. -/
theorem feedChunks_frameSeq : ∀ (cs : List (List Nat)) (p : List Nat)
    (fs : List DecodedFrame), decodeFrame p = DecodeResult.incomplete →
    FrameSeq (p ++ cs.flatten) fs → (∀ f ∈ fs, benignFrame f) →
    ∀ closed : Bool,
    feedChunks ⟨p, closed⟩ cs = (⟨[], closed⟩, streamEvents fs)
  | [], p, fs, hp, hseq, hben, closed => by
    have hseq' : FrameSeq p fs := by simpa using hseq
    cases hseq' with
    | nil => simp [feedChunks, streamEvents]
    | cons hdec hlen hseq2 =>
      rename_i block rst fr fss
      have hfr := @decodeFrame_append block rst fr hdec
      rw [hp] at hfr
      cases hfr
  | c :: cs, p, fs, hp, hseq, hben, closed => by
    have hseq' : FrameSeq ((p ++ c) ++ cs.flatten) fs := by
      simpa [List.append_assoc] using hseq
    obtain ⟨fs₁, fs₂, d, rem, hfs, hu, hd, hrem, hrv⟩ :=
      frameSeq_split hseq' (p ++ c) cs.flatten rfl
    have hben₁ : ∀ f ∈ fs₁, benignFrame f := fun f hf =>
      hben f (by rw [hfs]; exact List.mem_append_left _ hf)
    have hben₂ : ∀ f ∈ fs₂, benignFrame f := fun f hf =>
      hben f (by rw [hfs]; exact List.mem_append_right _ hf)
    have hstep : handleData ⟨p, closed⟩ c = (⟨rem, closed⟩, streamEvents fs₁) := by
      show processBuffer (p ++ c) closed = _
      rw [hu]
      exact processBuffer_frameSeq hd hben₁ hrem closed
    have ih := feedChunks_frameSeq cs rem fs₂ hrem hrv hben₂ closed
    simp only [feedChunks, hstep, ih, hfs, streamEvents_append]

/-! ### C7: chunk-boundary independence -/

/-- Counterexample to C7 as stated: the byte sequence
`[1, 0] ++ [129, 1, 65]` forms two complete frames (a fragmented text
frame, then a final text frame).  Fed as a single chunk, the handler
closes on the first frame and returns, never decoding the second; fed as
two chunks, the second invocation decodes the second frame and emits its
message (the handler has no `closed` check).  The two partitions produce
different decoded-frame sequences and different actions. -/
theorem claim_C7_counterexample :
    FrameSeq [1, 0, 129, 1, 65]
        [{ fin := false, opcode := 1, payload := [], totalLength := 2 },
          { fin := true, opcode := 1, payload := [65], totalLength := 3 }] ∧
      feedChunks ⟨[], false⟩ [[1, 0], [129, 1, 65]] ≠
        feedChunks ⟨[], false⟩ [[1, 0, 129, 1, 65]] := by
  have hfrag2 : decodeFrame [1, 0] =
      DecodeResult.frame { fin := false, opcode := 1, payload := [], totalLength := 2 } := by
    decide
  have hfrag5 : decodeFrame [1, 0, 129, 1, 65] =
      DecodeResult.frame { fin := false, opcode := 1, payload := [], totalLength := 2 } := by
    decide
  have hmsg : decodeFrame [129, 1, 65] =
      DecodeResult.frame { fin := true, opcode := 1, payload := [65], totalLength := 3 } := by
    decide
  constructor
  · exact @FrameSeq.cons [1, 0] [129, 1, 65]
      { fin := false, opcode := 1, payload := [], totalLength := 2 }
      [{ fin := true, opcode := 1, payload := [65], totalLength := 3 }]
      hfrag2 (by decide)
      (@FrameSeq.cons [129, 1, 65] []
        { fin := true, opcode := 1, payload := [65], totalLength := 3 } []
        hmsg (by decide) FrameSeq.nil)
  · have hsingle : feedChunks ⟨[], false⟩ [[1, 0, 129, 1, 65]] =
        (⟨[129, 1, 65], true⟩,
          [ConnEvent.closeSent 1003 "Fragmented frames are not supported"]) := by
      simp only [feedChunks, handleData, List.nil_append]
      rw [processBuffer_text_frag hfrag5 rfl rfl]
      simp
    have hstep1 : processBuffer [1, 0] false =
        (⟨[], true⟩, [ConnEvent.closeSent 1003 "Fragmented frames are not supported"]) := by
      rw [processBuffer_text_frag hfrag2 rfl rfl]
      simp
    have hstep2 : processBuffer [129, 1, 65] true =
        (⟨[], true⟩, [ConnEvent.message [65]]) := by
      rw [processBuffer_text_fin hmsg rfl rfl]
      have hnil : decodeFrame ([] : List Nat) = DecodeResult.incomplete := rfl
      rw [show List.drop
          ({ fin := true, opcode := 1, payload := [65], totalLength := 3 } :
            DecodedFrame).totalLength [129, 1, 65] = [] from rfl]
      rw [processBuffer_incomplete hnil]
    have hsplit : feedChunks ⟨[], false⟩ [[1, 0], [129, 1, 65]] =
        (⟨[], true⟩,
          [ConnEvent.closeSent 1003 "Fragmented frames are not supported",
            ConnEvent.message [65]]) := by
      simp [feedChunks, handleData, hstep1, hstep2]
    rw [hsingle, hsplit]
    decide

/-- C7 amended: for a byte stream of complete frames each of which the
handler consumes without leaving the loop — final text frames, pings and
pongs — every partition into consecutive chunks produces the same final
connection state and the same sequence of actions as feeding the whole
stream as one chunk.  (For a stream containing a close-triggering frame
this fails, because the handler never rechecks `closed`; see the
counterexample.) -/
theorem claim_C7_chunking_independent_for_benign (data : List Nat)
    (fs : List DecodedFrame) (cs : List (List Nat))
    (hseq : FrameSeq data fs) (hben : ∀ f ∈ fs, benignFrame f)
    (hflat : cs.flatten = data) (closed : Bool) :
    feedChunks ⟨[], closed⟩ cs = feedChunks ⟨[], closed⟩ [data] := by
  have hnil : decodeFrame ([] : List Nat) = DecodeResult.incomplete := rfl
  have hleft := feedChunks_frameSeq cs [] fs hnil (by simpa [hflat] using hseq)
    hben closed
  have hright := feedChunks_frameSeq [data] [] fs hnil (by simpa using hseq)
    hben closed
  rw [hleft, hright]

/-- Witness for the amended C7: one text frame delivered split across two
chunks behaves as when delivered whole. -/
theorem claim_C7_witness :
    FrameSeq [129, 1, 65]
        [{ fin := true, opcode := 1, payload := [65], totalLength := 3 }] ∧
      ([[129], [1, 65]] : List (List Nat)).flatten = [129, 1, 65] ∧
      feedChunks ⟨[], false⟩ [[129], [1, 65]] =
        feedChunks ⟨[], false⟩ [[129, 1, 65]] := by
  have hmsg : decodeFrame [129, 1, 65] =
      DecodeResult.frame { fin := true, opcode := 1, payload := [65], totalLength := 3 } := by
    decide
  have hseq : FrameSeq [129, 1, 65]
      [{ fin := true, opcode := 1, payload := [65], totalLength := 3 }] :=
    @FrameSeq.cons [129, 1, 65] []
      { fin := true, opcode := 1, payload := [65], totalLength := 3 } []
      hmsg (by decide) FrameSeq.nil
  refine ⟨hseq, by decide,
    claim_C7_chunking_independent_for_benign [129, 1, 65] _ [[129], [1, 65]] hseq
      ?_ (by decide) false⟩
  intro f hf
  rcases List.mem_singleton.mp hf with rfl
  exact Or.inl ⟨rfl, rfl⟩

/-! ### C8: a fragmented text frame closes the connection -/

/-- Counterexample to C8 as stated: after the fragmented text frame
`[1, 0]` closes the connection with 1003, a complete text frame arriving
in a later chunk is still decoded and its `message` event emitted — the
data handler has no `closed` check — so it is not the case that no frame
arriving after it is processed. -/
theorem claim_C8_counterexample :
    feedChunks ⟨[], false⟩ [[1, 0], [129, 1, 65]] =
      (⟨[], true⟩,
        [ConnEvent.closeSent 1003 "Fragmented frames are not supported",
          ConnEvent.message [65]]) := by
  have hfrag2 : decodeFrame [1, 0] =
      DecodeResult.frame { fin := false, opcode := 1, payload := [], totalLength := 2 } := by
    decide
  have hmsg : decodeFrame [129, 1, 65] =
      DecodeResult.frame { fin := true, opcode := 1, payload := [65], totalLength := 3 } := by
    decide
  have hstep1 : processBuffer [1, 0] false =
      (⟨[], true⟩, [ConnEvent.closeSent 1003 "Fragmented frames are not supported"]) := by
    rw [processBuffer_text_frag hfrag2 rfl rfl]
    simp
  have hstep2 : processBuffer [129, 1, 65] true =
      (⟨[], true⟩, [ConnEvent.message [65]]) := by
    rw [processBuffer_text_fin hmsg rfl rfl]
    have hnil : decodeFrame ([] : List Nat) = DecodeResult.incomplete := rfl
    rw [show List.drop
        ({ fin := true, opcode := 1, payload := [65], totalLength := 3 } :
          DecodedFrame).totalLength [129, 1, 65] = [] from rfl]
    rw [processBuffer_incomplete hnil]
  simp [feedChunks, handleData, hstep1, hstep2]

/-- C8 amended: when the next frame in the buffer is a text frame with
`fin = 0`, the handler closes with code 1003 (writing the close frame
only if the connection was not already closed), sets the closed flag,
performs no other action in that invocation — in particular no `message`
event — and leaves the bytes after the frame unprocessed in the buffer.
Bytes arriving in later chunks are still decoded, since the handler never
checks the closed flag (see the counterexample). -/
theorem claim_C8_fragmented_text_closes (st : ConnState) (chunk : List Nat)
    (f : DecodedFrame)
    (h : decodeFrame (st.buffer ++ chunk) = DecodeResult.frame f)
    (hop : f.opcode = 0x1) (hfin : f.fin = false) :
    handleData st chunk =
      (⟨(st.buffer ++ chunk).drop f.totalLength, true⟩,
        if st.closed then [] else
          [ConnEvent.closeSent 1003 "Fragmented frames are not supported"]) :=
  processBuffer_text_frag h hop hfin

/-- Witness for the amended C8 at a concrete fragmented text frame. -/
theorem claim_C8_witness :
    handleData ⟨[], false⟩ [1, 0] =
      (⟨[], true⟩, [ConnEvent.closeSent 1003 "Fragmented frames are not supported"]) := by
  have h := claim_C8_fragmented_text_closes ⟨[], false⟩ [1, 0]
    { fin := false, opcode := 1, payload := [], totalLength := 2 } (by decide) rfl rfl
  simpa using h

end OdooMcp
